import Mathlib

set_option maxHeartbeats 1000000
set_option maxRecDepth 8000

/-!
Shallow embedding of the OSM public-transport route exporter:
`osm_processor.py`, `kml_exporter.py`, `shp_exporter.py`, `validator.py`
and `main.py`.  Pure data passes become Lean functions over explicit
record types; Python dicts with optional keys are modelled as string-keyed
association lists; code that raises and catches exceptions is modelled
with `Except` / `Option` values.
-/

deriving instance DecidableEq for Except

/-- A geographic coordinate: a (longitude, latitude) pair, with exact
rationals standing in for the floating point degrees of the source. -/
abbrev Coord : Type := ℚ × ℚ

/-- A line geometry (shapely `LineString`): an ordered coordinate list. -/
abbrev Polyline : Type := List Coord

/-- The values that can sit inside the dict-shaped route records built by
`PTHandler.relation` and consumed by the exporters. -/
inductive Val where
  | s (v : String)
  | ways (v : List Int)
  | geoms (v : List Polyline)
deriving DecidableEq

/-- A route record: the string-keyed dictionary built by
`PTHandler.relation` in `osm_processor.py`. -/
abbrev RouteDict : Type := List (String × Val)

/-- Dictionary lookup (`d[k]` / `d.get(k)`): first binding of the key. -/
def dlookup (d : RouteDict) (k : String) : Option Val :=
  (d.find? (fun p => p.1 == k)).map (fun p => p.2)

/-- `d.get(k, dflt)` for a string-valued entry. -/
def dgetS (d : RouteDict) (k : String) (dflt : String) : String :=
  match dlookup d k with
  | some (Val.s v) => v
  | _ => dflt

/-- `d["ways"]`: the ordered way-id list of a route record.  Pipeline
dictionaries always carry this key. -/
def dgetWays (d : RouteDict) : List Int :=
  match dlookup d "ways" with
  | some (Val.ways v) => v
  | _ => []

/-- `d.get("geometries", [])`: the geometry list of a route record. -/
def dgetGeoms (d : RouteDict) : List Polyline :=
  match dlookup d "geometries" with
  | some (Val.geoms v) => v
  | _ => []

/-- `d[k] = v` on a Python dict: overwrite in place, or append. -/
def dset (d : RouteDict) (k : String) (v : Val) : RouteDict :=
  if (d.find? (fun p => p.1 == k)).isSome then
    d.map (fun p => if p.1 == k then (k, v) else p)
  else d ++ [(k, v)]

/-- OSM tag lookup `tags.get(k)`: first binding of the key. -/
def tagGet (tags : List (String × String)) (k : String) : Option String :=
  (tags.find? (fun p => p.1 == k)).map (fun p => p.2)

/-- OSM tag lookup with a default, `tags.get(k, dflt)`. -/
def tagGetD (tags : List (String × String)) (k : String) (dflt : String) : String :=
  (tagGet tags k).getD dflt

/-- A relation member: osmium kind character (`"w"`, `"n"`, `"r"`) and the
referenced element id. -/
structure OsmMember where
  mtype : String
  ref : Int
deriving DecidableEq

/-- An OSM relation record as the parsing adapter yields it. -/
structure OsmRelation where
  rid : Int
  tags : List (String × String)
  members : List OsmMember
deriving DecidableEq

/-- An OSM node record; `none` models an invalid/missing location (the
case where `n.location` raises `osmium.InvalidLocationError`). -/
structure OsmNode where
  nid : Int
  loc : Option Coord
deriving DecidableEq

/-- An OSM way record: id plus ordered node references. -/
structure OsmWay where
  wid : Int
  nodeRefs : List Int
deriving DecidableEq

/-- An OSM input file, presented as the three enumerations the passes
consume. -/
structure OsmFile where
  nodes : List OsmNode
  ways : List OsmWay
  relations : List OsmRelation
deriving DecidableEq

/-- Integer-keyed dict lookup (`k in d` / `d[k]`). -/
def alookup {α : Type} (k : Int) (l : List (Int × α)) : Option α :=
  (l.find? (fun p => p.1 == k)).map (fun p => p.2)

/-- Integer-keyed dict assignment `d[k] = v`: overwrite keeping the
original position, or append a fresh binding. -/
def upsert {α : Type} (k : Int) (v : α) (l : List (Int × α)) : List (Int × α) :=
  if l.any (fun p => p.1 == k) then
    l.map (fun p => if p.1 == k then (k, v) else p)
  else l ++ [(k, v)]

/-- `PTHandler.TRANSPORT_TYPES` from `osm_processor.py`. -/
def TRANSPORT_TYPES : List String :=
  ["bus", "trolleybus", "tram", "train", "subway", "light_rail"]

/-- The acceptance test of `PTHandler.relation`:
`r.tags.get("type") == "route" and r.tags.get("route") in TRANSPORT_TYPES`. -/
def acceptsRelation (r : OsmRelation) : Bool :=
  (tagGet r.tags "type" == some "route") &&
    (match tagGet r.tags "route" with
     | some t => TRANSPORT_TYPES.contains t
     | none => false)

/-- The member filter of `PTHandler.relation`: keep refs of members with
`m.type == "w"`, in declared order. -/
def wayMembers (r : OsmRelation) : List Int :=
  (r.members.filter (fun m => m.mtype == "w")).map OsmMember.ref

/-- The dict stored by `PTHandler.relation` for an accepted relation. -/
def routeDictOf (r : OsmRelation) : RouteDict :=
  [("name", Val.s (tagGetD r.tags "name" ("route_" ++ toString r.rid))),
   ("ref", Val.s (tagGetD r.tags "ref" "")),
   ("type", Val.s (tagGetD r.tags "route" "")),
   ("ways", Val.ways (wayMembers r))]

/-- One call of `PTHandler.relation` on the running `self.routes` dict. -/
def pt_relation (routes : List (Int × RouteDict)) (r : OsmRelation) :
    List (Int × RouteDict) :=
  if acceptsRelation r then upsert r.rid (routeDictOf r) routes else routes

/-- The whole relation pass (`handler.apply_file`): fold
`PTHandler.relation` over the relation stream. -/
def handler_routes (rels : List OsmRelation) : List (Int × RouteDict) :=
  rels.foldl pt_relation []

/-- The node pass (`NodeCollector`): build the coordinate store, logging
the id of every node whose location is invalid. -/
def node_pass : List OsmNode → List (Int × Coord) × List Int
  | [] => ([], [])
  | n :: rest =>
    let res := node_pass rest
    match n.loc with
    | some c => ((n.nid, c) :: res.1, res.2)
    | none => (res.1, n.nid :: res.2)

/-- The coordinates of a way's node references that resolve in the
store, in reference order (`coords` in `WayCollector.way`). -/
def resolvedCoords (store : List (Int × Coord)) (w : OsmWay) : List Coord :=
  w.nodeRefs.filterMap (fun nref => alookup nref store)

/-- The count of node references that do not resolve
(`missing_nodes` in `WayCollector.way`). -/
def missingCount (store : List (Int × Coord)) (w : OsmWay) : Nat :=
  w.nodeRefs.countP (fun nref => (alookup nref store).isNone)

/-- One call of `WayCollector.way`: the retained geometry entry (if any)
and the emitted warning (if any), mirroring the
`if coords and len(coords) >= 2 ... elif missing_nodes > 0 ...` branches. -/
def processWay (store : List (Int × Coord)) (w : OsmWay) :
    Option (Int × Polyline) × Option (Int × Nat) :=
  let coords := resolvedCoords store w
  let missing := missingCount store w
  if coords ≠ [] ∧ 2 ≤ coords.length then (some (w.wid, coords), none)
  else if 0 < missing then (none, some (w.wid, missing))
  else (none, none)

/-- The way pass (`WayCollector`): the `way_geoms` mapping plus the
missing-node warnings, in stream order.  OSM way ids are unique, so the
dict is an association list in insertion order. -/
def way_pass (store : List (Int × Coord)) : List OsmWay →
    List (Int × Polyline) × List (Int × Nat)
  | [] => ([], [])
  | w :: rest =>
    let res := way_pass store rest
    match processWay store w with
    | (some e, _) => (e :: res.1, res.2)
    | (none, some warn) => (res.1, warn :: res.2)
    | (none, none) => res

/-- The two endpoints of a line, as a list (empty for an empty line). -/
def lineEnds (l : Polyline) : List Coord :=
  l.head?.toList ++ l.getLast?.toList

/-- Exact-equality endpoint sharing between two lines: the adjacency
criterion of the topological line merge (no tolerance or snapping). -/
def sharesEnd (a b : Polyline) : Bool :=
  (lineEnds a).any (fun p => (lineEnds b).any (fun q => decide (p = q)))

/-- Whether a line shares an endpoint with some member of a group. -/
def touches (l : Polyline) (g : List Polyline) : Bool :=
  g.any (fun y => sharesEnd l y)

/-- Insert one line into a running fragment partition: all groups it
touches are merged with it into a single fragment; the rest stay. -/
def insertLine (l : Polyline) (gs : List (List Polyline)) :
    List (List Polyline) :=
  let t := gs.partition (fun g => touches l g)
  (l :: t.1.flatten) :: t.2

/-- Modelled from the spec: the geometric merge
`linemerge(unary_union(lines))` of shapely is an external library call
whose source is not part of this repository; following the spec's §4.4
merge step and its §9 design note, it is modelled as a union-find style
grouping of the input lines over shared endpoints under exact coordinate
equality.  Each resulting group is one merged fragment; lines with no
shared endpoint remain separate fragments. -/
def fragments (ls : List Polyline) : List (List Polyline) :=
  ls.foldr insertLine []

/-- One adjacency step inside a fixed line set: both lines belong to the
set and share an endpoint. -/
def StepAdj (ls : List Polyline) (a b : Polyline) : Prop :=
  a ∈ ls ∧ b ∈ ls ∧ sharesEnd a b = true

/-- Connectivity in the shared-endpoint graph of a line set: the
reflexive-transitive closure of single adjacency steps. -/
def ConnIn (ls : List Polyline) (a b : Polyline) : Prop :=
  Relation.ReflTransGen (StepAdj ls) a b

/-- Two groups of lines are separated when no line of one shares an
endpoint with a line of the other. -/
def SepRel (g h : List Polyline) : Prop :=
  ∀ a ∈ g, ∀ b ∈ h, sharesEnd a b = false

/-- The fragment partition invariants: groups are nonempty, draw only
from the line set, cover it, are internally connected, and are pairwise
endpoint-disjoint. -/
structure GoodPartition (ls : List Polyline) (gs : List (List Polyline)) : Prop where
  nonempty : ∀ g ∈ gs, g ≠ []
  mem_sub : ∀ g ∈ gs, ∀ a ∈ g, a ∈ ls
  covers : ∀ a ∈ ls, ∃ g ∈ gs, a ∈ g
  conn : ∀ g ∈ gs, ∀ a ∈ g, ∀ b ∈ g, ConnIn ls a b
  sep : gs.Pairwise SepRel

/-- The connectivity setoid of the shared-endpoint graph over the lines
of a set: its equivalence classes are the connected components. -/
def connSetoid (ls : List Polyline) : Setoid {x : Polyline // x ∈ ls} where
  r a b := ConnIn ls a.1 b.1
  iseqv := by
    refine ⟨fun _ => Relation.ReflTransGen.refl, ?_, ?_⟩
    · intro a b h
      refine Relation.ReflTransGen.symmetric ?_ h
      intro u v huv
      refine ⟨huv.2.1, huv.1, ?_⟩
      have h3 := huv.2.2
      simp only [sharesEnd, List.any_eq_true, decide_eq_true_eq] at h3 ⊢
      obtain ⟨p, hp, q, hq, hpq⟩ := h3
      exact ⟨q, hq, p, hp, hpq.symm⟩
    · intro a b c h1 h2
      exact Relation.ReflTransGen.trans h1 h2

/-- The geometries a route's way list resolves to in `way_geoms`
(step 4 of `process_osm_file`). -/
def geomsOf (way_geoms : List (Int × Polyline)) (d : RouteDict) : List Polyline :=
  (dgetWays d).filterMap (fun way_id => alookup way_id way_geoms)

/-- `route_data["name"]` as used by the step-4 log lines. -/
def routeName (d : RouteDict) : String :=
  dgetS d "name" ""

/-- Step 4 of `process_osm_file`: attach geometries to each route,
emitting `routes_with_geometry` together with the skipped-route log
entries `(name, id)` for routes with no valid geometry. -/
def assembleStep (way_geoms : List (Int × Polyline)) :
    List (Int × RouteDict) → List (Int × RouteDict) × List (String × Int)
  | [] => ([], [])
  | (rid, d) :: rest =>
    let gs := geomsOf way_geoms d
    let res := assembleStep way_geoms rest
    if gs.isEmpty then (res.1, (routeName d, rid) :: res.2)
    else ((rid, dset d "geometries" (Val.geoms gs)) :: res.1, res.2)

/-- `process_osm_file`: the four passes in sequence, returning the routes
with geometry plus the skipped-route log. -/
def process_osm_file (f : OsmFile) :
    List (Int × RouteDict) × List (String × Int) :=
  let routes := handler_routes f.relations
  let store := (node_pass f.nodes).1
  let way_geoms := (way_pass store f.ways).1
  assembleStep way_geoms routes

/-- The transport-relation scan of `validate_osm_file` in `validator.py`. -/
def validator_has_transport (f : OsmFile) : Bool :=
  f.relations.any (fun r =>
    (tagGet r.tags "type" == some "route") &&
      (match tagGet r.tags "route" with
       | some t =>
         ["bus", "trolleybus", "tram", "train", "subway", "light_rail"].contains t
       | none => false))

/-- `validate_osm_file`: the semantic validation of the input.  File
existence, the `.osm` extension and XML well-formedness are filesystem
concerns outside the embedding; the remaining check is the search for at
least one qualifying transport relation. -/
def validate_osm_file (f : OsmFile) : Bool × String :=
  if validator_has_transport f then (true, "OK")
  else (false, "El archivo no contiene relaciones de transporte publico validas")

/-- A merged route geometry: the list of fragments the merge produced,
each fragment being one group of joined lines. -/
abbrev Frags : Type := List (List Polyline)

/-- Absolute value on the rationals, by case split. -/
def qabs (q : ℚ) : ℚ :=
  if q < 0 then -q else q

/-- Taxicab length of one segment, on exact rationals. -/
def segLen (p q : Coord) : ℚ :=
  qabs (q.1 - p.1) + qabs (q.2 - p.2)

/-- Taxicab length of the segments from a start point along a point list. -/
def polyLenFrom (p : Coord) : Polyline → ℚ
  | [] => 0
  | q :: rest => segLen p q + polyLenFrom q rest

/-- Taxicab length of one polyline. -/
def polyLen : Polyline → ℚ
  | [] => 0
  | p :: rest => polyLenFrom p rest

/-- Modelled from the spec: the geopandas/pyproj reprojection-and-length
collaborator of `calculate_route_length` is external to this repository;
a concrete planar metric is provided for instantiation, with the taxicab
metric standing in for the projected metric (it has the same zero set:
a geometry has length 0 exactly when every segment is degenerate). -/
def specProjLen (g : Frags) : Option ℚ :=
  some ((g.map (fun fr => (fr.map polyLen).sum)).sum)

/-- `calculate_route_length` of `shp_exporter.py`, parametrised by the
external projection/length collaborator `projLen`; `none` models the
exception path, which is caught, logged as a warning, and replaced by
`0.0`. -/
def calculate_route_length (projLen : Frags → Option ℚ)
    (geometry : Frags) : ℚ :=
  match projLen geometry with
  | some length_m => length_m / 1000
  | none => 0

/-- `round(x, 3)`: rounding to three decimal places. -/
def round3 (q : ℚ) : ℚ :=
  ((⌊q * 1000 + 1 / 2⌋ : ℤ) : ℚ) / 1000

/-- Python `str.strip(chars)`: drop the given characters from both ends. -/
def stripEnds (s : String) (cs : List Char) : String :=
  let l := s.toList.dropWhile (fun c => cs.contains c)
  String.mk ((l.reverse.dropWhile (fun c => cs.contains c)).reverse)

/-- The string an f-string interpolation produces for an optional dict
value; only string values occur for the keys so interpolated. -/
def valFStr : Option Val → String
  | some (Val.s v) => v
  | _ => ""

/-- The record written per route by the tabular serializer
(`create_route_record` in `shp_exporter.py`). -/
structure ShpRecord where
  route_id : Val
  route_name : String
  ref : String
  route_type : String
  from_stop : String
  to_stop : String
  operator : String
  route_long : String
  length_km : ℚ
  geometry : Frags
deriving DecidableEq

/-- `create_route_record`: build the full shapefile record from the route
dict and the merged geometry, exactly mirroring the source's key
lookups and the `route_long` derivation. -/
def create_route_record (projLen : Frags → Option ℚ)
    (route_data : RouteDict) (geometry : Frags) : ShpRecord :=
  let from_stop := dgetS route_data "from" ""
  let to_stop := dgetS route_data "to" ""
  let stripped := stripEnds (from_stop ++ " - " ++ to_stop) [' ', '-']
  let route_long :=
    if stripped = "" ∨ stripped = "-" then
      dgetS route_data "name" ("route_" ++ valFStr (dlookup route_data "id"))
    else stripped
  let length_km := calculate_route_length projLen geometry
  { route_id := (dlookup route_data "id").getD (Val.s "")
    route_name := dgetS route_data "name" ""
    ref := dgetS route_data "ref" ""
    route_type := dgetS route_data "route" ""
    from_stop := from_stop
    to_stop := to_stop
    operator := dgetS route_data "operator" ""
    route_long := route_long
    length_km := round3 length_km
    geometry := geometry }

/-- `create_continuous_geometry` of `shp_exporter.py`: collect the
resolvable way geometries, raise if there are none, merge, raise if the
merge is empty. -/
def create_continuous_geometry (ways : List Int)
    (way_geoms : List (Int × Polyline)) : Except String Frags :=
  let lines := ways.filterMap (fun way_id => alookup way_id way_geoms)
  if lines.isEmpty then
    Except.error "No se encontraron geometrias validas para los ways"
  else
    let merged := fragments lines
    if merged.isEmpty then
      Except.error "Error al unir geometrias: La geometria resultante esta vacia"
    else Except.ok merged

/-- The body of one iteration of the shapefile export loop: build the
continuous geometry and the record, or fail with the caught exception. -/
def routeRecordE (projLen : Frags → Option ℚ)
    (way_geoms : List (Int × Polyline)) (d : RouteDict) :
    Except String ShpRecord :=
  (create_continuous_geometry (dgetWays d) way_geoms).map
    (fun g => create_route_record projLen d g)

/-- `route.get("name", route.get("id", "desconocida"))`: the label used
when logging a skipped route. -/
def skipName (d : RouteDict) : String :=
  match dlookup d "name" with
  | some (Val.s v) => v
  | _ =>
    match dlookup d "id" with
    | some (Val.s v) => v
    | some _ => ""
    | none => "desconocida"

/-- The per-route loop of `export_routes_to_shapefile`: a caught per-route
exception logs the route's label into `skipped_routes` and continues. -/
def export_shp_loop (projLen : Frags → Option ℚ)
    (way_geoms : List (Int × Polyline)) :
    List (Int × RouteDict) → List ShpRecord × List String
  | [] => ([], [])
  | (_, d) :: rest =>
    let res := export_shp_loop projLen way_geoms rest
    match routeRecordE projLen way_geoms d with
    | Except.ok r => (r :: res.1, res.2)
    | Except.error _ => (res.1, skipName d :: res.2)

/-- `export_routes_to_shapefile`: run the loop and raise when no route at
all produced a record. -/
def export_routes_to_shapefile (projLen : Frags → Option ℚ)
    (routes : List (Int × RouteDict)) (way_geoms : List (Int × Polyline)) :
    Except String (List ShpRecord × List String) :=
  let res := export_shp_loop projLen way_geoms routes
  if res.1.isEmpty then
    Except.error "No se generaron geometrias validas para ninguna ruta"
  else Except.ok res

/-- One visual feature of a KML document: name, description and the
merged fragment it draws. -/
structure KmlFeature where
  fname : String
  description : String
  geom : List Polyline
deriving DecidableEq

/-- One produced KML file: document name plus its features. -/
structure KmlFile where
  docName : String
  features : List KmlFeature
deriving DecidableEq

/-- The description block of `export_routes_to_kml` (the generation
timestamp of the source is an external clock read and is omitted). -/
def kmlDescription (rid : Int) (d : RouteDict) : String :=
  "Tipo: " ++ dgetS d "type" "N/A" ++ "\n" ++
    (if dgetS d "ref" "" ≠ "" then "Referencia: " ++ dgetS d "ref" "" ++ "\n" else "") ++
    "ID OSM: " ++ toString rid

/-- One iteration of the KML export loop: skip a route without
geometries, merge, and emit one feature per fragment (the
multi-fragment branch numbers the parts). -/
def kmlForRoute (p : Int × RouteDict) : Option KmlFile :=
  let rid := p.1
  let d := p.2
  let geometries := dgetGeoms d
  if geometries.isEmpty then none
  else
    let merged := fragments geometries
    let nm := routeName d
    let desc := kmlDescription rid d
    if merged.isEmpty then none
    else if merged.length = 1 then
      some { docName := nm,
             features := merged.map (fun fr =>
               { fname := nm, description := desc, geom := fr }) }
    else
      some { docName := nm,
             features := merged.enum.map (fun pr =>
               { fname := nm ++ " (parte " ++ toString (pr.1 + 1) ++ ")",
                 description := desc, geom := pr.2 }) }

/-- `export_routes_to_kml`: the per-route loop with its caught failures;
a route that produces no document is skipped and the loop continues. -/
def export_routes_to_kml : List (Int × RouteDict) → List KmlFile
  | [] => []
  | p :: rest =>
    match kmlForRoute p with
    | some f => f :: export_routes_to_kml rest
    | none => export_routes_to_kml rest

/-- The module-level names defined by `osm_processor.py`. -/
def osm_processor_defs : List String :=
  ["PTHandler", "process_osm_file"]

/-- The observable outcome of one run of `main.py`. -/
inductive MainOutcome where
  | validationExit (msg : String)
  | noRoutesExit
  | importErrorAt (missingName : String)
  | exported (kmlCount : Nat)
deriving DecidableEq

/-- The control flow of `main()` in `main.py`: validate, process, exit on
empty routes, then execute
`from osm_processor import get_way_geometries`, which succeeds only if
the module defines that name; only then are the export steps reached. -/
def mainRun (f : OsmFile) : MainOutcome :=
  if (validate_osm_file f).1 = false then
    MainOutcome.validationExit (validate_osm_file f).2
  else
    let routes := (process_osm_file f).1
    if routes.isEmpty then MainOutcome.noRoutesExit
    else if osm_processor_defs.contains "get_way_geometries" then
      MainOutcome.exported (export_routes_to_kml routes).length
    else MainOutcome.importErrorAt "get_way_geometries"

/-! ### Lemmas about the shared-endpoint merge -/

theorem sharesEnd_iff {a b : Polyline} :
    sharesEnd a b = true ↔ ∃ p ∈ lineEnds a, ∃ q ∈ lineEnds b, p = q := by
  simp [sharesEnd, List.any_eq_true]

theorem sharesEnd_true_symm {a b : Polyline} (h : sharesEnd a b = true) :
    sharesEnd b a = true := by
  obtain ⟨p, hp, q, hq, hpq⟩ := sharesEnd_iff.mp h
  exact sharesEnd_iff.mpr ⟨q, hq, p, hp, hpq.symm⟩

theorem sharesEnd_symm (a b : Polyline) : sharesEnd a b = sharesEnd b a := by
  cases hab : sharesEnd a b with
  | true => exact (sharesEnd_true_symm hab).symm
  | false =>
    cases hba : sharesEnd b a with
    | true => rw [sharesEnd_true_symm hba] at hab; exact hab.symm
    | false => rfl

theorem sharesEnd_self {l : Polyline} (h : l ≠ []) : sharesEnd l l = true := by
  obtain ⟨x, xs, rfl⟩ := List.exists_cons_of_ne_nil h
  have hx : x ∈ lineEnds (x :: xs) := by simp [lineEnds]
  exact sharesEnd_iff.mpr ⟨x, hx, x, hx, rfl⟩

theorem stepAdj_symmetric (ls : List Polyline) : Symmetric (StepAdj ls) := by
  intro a b h
  exact ⟨h.2.1, h.1, by rw [sharesEnd_symm]; exact h.2.2⟩

theorem connIn_symm {ls : List Polyline} {a b : Polyline}
    (h : ConnIn ls a b) : ConnIn ls b a :=
  Relation.ReflTransGen.symmetric (stepAdj_symmetric ls) h

theorem connIn_mono {ls ls' : List Polyline} (hsub : ∀ x ∈ ls, x ∈ ls')
    {a b : Polyline} (h : ConnIn ls a b) : ConnIn ls' a b :=
  Relation.ReflTransGen.mono
    (fun _ _ hxy => ⟨hsub _ hxy.1, hsub _ hxy.2.1, hxy.2.2⟩) h

theorem sepRel_symmetric : Symmetric SepRel := by
  intro g h H b hb a ha
  rw [sharesEnd_symm]
  exact H a ha b hb

theorem sepRel_of_mem {gs : List (List Polyline)} (hp : gs.Pairwise SepRel)
    {g r : List Polyline} (hg : g ∈ gs) (hr : r ∈ gs) (hne : g ≠ r) :
    SepRel g r :=
  List.Pairwise.forall sepRel_symmetric hp hg hr hne

theorem goodPartition_insert {ls : List Polyline} {gs : List (List Polyline)}
    (x : Polyline) (h : GoodPartition ls gs) :
    GoodPartition (x :: ls) (insertLine x gs) := by
  have h1 : insertLine x gs =
      (x :: (gs.filter (fun g => touches x g)).flatten) ::
        gs.filter (not ∘ fun g => touches x g) := by
    rw [insertLine, List.partition_eq_filter_filter]
  have htouch : ∀ g ∈ gs.filter (fun g => touches x g),
      ∃ y ∈ g, sharesEnd x y = true := by
    intro g hg
    have h2 := (List.mem_filter.mp hg).2
    simpa [touches, List.any_eq_true] using h2
  have hnotouch : ∀ r ∈ gs.filter (not ∘ fun g => touches x g),
      ∀ b ∈ r, sharesEnd x b = false := by
    intro r hr b hb
    have h2 := (List.mem_filter.mp hr).2
    simp only [Function.comp, Bool.not_eq_true', touches, List.any_eq_false] at h2
    simpa using h2 b hb
  have hsubcons : ∀ z ∈ ls, z ∈ x :: ls := fun z hz => List.mem_cons_of_mem x hz
  have hconnx : ∀ a ∈ x :: (gs.filter (fun g => touches x g)).flatten,
      ConnIn (x :: ls) x a := by
    intro a ha
    rcases List.mem_cons.mp ha with rfl | hmem
    · exact Relation.ReflTransGen.refl
    · obtain ⟨g, hgT, hag⟩ := List.mem_flatten.mp hmem
      obtain ⟨y, hyg, hxy⟩ := htouch g hgT
      have hg_gs : g ∈ gs := List.mem_of_mem_filter hgT
      have hy_ls : y ∈ ls := h.mem_sub g hg_gs y hyg
      have step1 : StepAdj (x :: ls) x y :=
        ⟨List.mem_cons_self x ls, List.mem_cons_of_mem x hy_ls, hxy⟩
      have conn2 : ConnIn (x :: ls) y a :=
        connIn_mono hsubcons (h.conn g hg_gs y hyg a hag)
      exact Relation.ReflTransGen.head step1 conn2
  rw [h1]
  refine ⟨?_, ?_, ?_, ?_, ?_⟩
  · intro g hg
    rcases List.mem_cons.mp hg with rfl | hgR
    · exact List.cons_ne_nil x _
    · exact h.nonempty g (List.mem_of_mem_filter hgR)
  · intro g hg a ha
    rcases List.mem_cons.mp hg with rfl | hgR
    · rcases List.mem_cons.mp ha with rfl | hmem
      · exact List.mem_cons_self a ls
      · obtain ⟨t, htT, hat⟩ := List.mem_flatten.mp hmem
        exact List.mem_cons_of_mem x
          (h.mem_sub t (List.mem_of_mem_filter htT) a hat)
    · exact List.mem_cons_of_mem x
        (h.mem_sub g (List.mem_of_mem_filter hgR) a ha)
  · intro a ha
    rcases List.mem_cons.mp ha with rfl | hals
    · exact ⟨_, List.mem_cons_self _ _, List.mem_cons_self _ _⟩
    · obtain ⟨g, hgs, hag⟩ := h.covers a hals
      cases ht : touches x g with
      | true =>
        refine ⟨_, List.mem_cons_self _ _, List.mem_cons_of_mem x ?_⟩
        exact List.mem_flatten.mpr ⟨g, List.mem_filter.mpr ⟨hgs, ht⟩, hag⟩
      | false =>
        refine ⟨g, List.mem_cons_of_mem _ ?_, hag⟩
        exact List.mem_filter.mpr ⟨hgs, by simp [Function.comp, ht]⟩
  · intro g hg a ha b hb
    rcases List.mem_cons.mp hg with rfl | hgR
    · exact Relation.ReflTransGen.trans
        (connIn_symm (hconnx a ha)) (hconnx b hb)
    · exact connIn_mono hsubcons
        (h.conn g (List.mem_of_mem_filter hgR) a ha b hb)
  · refine List.Pairwise.cons ?_ ?_
    · intro r hrR a ha b hb
      rcases List.mem_cons.mp ha with rfl | haT
      · exact hnotouch r hrR b hb
      · obtain ⟨g, hgT, hag⟩ := List.mem_flatten.mp haT
        have hg_gs : g ∈ gs := List.mem_of_mem_filter hgT
        have hr_gs : r ∈ gs := List.mem_of_mem_filter hrR
        have hne : g ≠ r := by
          intro hEq
          have h2 := (List.mem_filter.mp hgT).2
          have h3 := (List.mem_filter.mp hrR).2
          rw [hEq] at h2
          simp [Function.comp] at h3
          rw [h2] at h3
          cases h3
        exact sepRel_of_mem h.sep hg_gs hr_gs hne a hag b hb
    · exact List.Pairwise.sublist (List.filter_sublist gs) h.sep

theorem fragments_good (ls : List Polyline) : GoodPartition ls (fragments ls) := by
  induction ls with
  | nil =>
    refine ⟨?_, ?_, ?_, ?_, ?_⟩ <;> simp [fragments]
  | cons x xs ih =>
    exact goodPartition_insert x ih

theorem good_sep_get {ls : List Polyline} {gs : List (List Polyline)}
    (h : GoodPartition ls gs) {i j : Fin gs.length} (hne : i ≠ j)
    {a b : Polyline} (ha : a ∈ gs.get i) (hb : b ∈ gs.get j) :
    sharesEnd a b = false := by
  rcases hne.lt_or_lt with hij | hji
  · exact (List.pairwise_iff_get.mp h.sep i j hij) a ha b hb
  · have h2 := (List.pairwise_iff_get.mp h.sep j i hji) b hb a ha
    rw [sharesEnd_symm]
    exact h2

theorem good_uniq_idx {ls : List Polyline} {gs : List (List Polyline)}
    (h : GoodPartition ls gs) (hl : ∀ l ∈ ls, l ≠ [])
    {i j : Fin gs.length} {a : Polyline}
    (ha : a ∈ gs.get i) (hb : a ∈ gs.get j) : i = j := by
  by_contra hne
  have hfalse := good_sep_get h hne ha hb
  have hals : a ∈ ls := h.mem_sub _ (List.get_mem gs i.1 i.2) a ha
  have htrue : sharesEnd a a = true := sharesEnd_self (hl a hals)
  rw [htrue] at hfalse
  cases hfalse

theorem good_chain {ls : List Polyline} {gs : List (List Polyline)}
    (h : GoodPartition ls gs) (hl : ∀ l ∈ ls, l ≠ [])
    {a b : Polyline} (hc : ConnIn ls a b) {i : Fin gs.length}
    (ha : a ∈ gs.get i) : b ∈ gs.get i := by
  induction hc with
  | refl => exact ha
  | tail _ hstep ih =>
    obtain ⟨hc_ls, hb_ls, hadj⟩ := hstep
    obtain ⟨g, hgs, hbg⟩ := h.covers _ hb_ls
    obtain ⟨j, hj⟩ := List.mem_iff_get.mp hgs
    have hbj : _ ∈ gs.get j := hj ▸ hbg
    by_cases hij : i = j
    · exact hij ▸ hbj
    · have hfalse := good_sep_get h hij ih hbj
      rw [hadj] at hfalse
      cases hfalse

theorem fragments_length_eq_card (ls : List Polyline)
    (hl : ∀ l ∈ ls, l ≠ []) :
    (fragments ls).length = Nat.card (Quotient (connSetoid ls)) := by
  classical
  have good := fragments_good ls
  have hex : ∀ a : {x : Polyline // x ∈ ls},
      ∃ i : Fin (fragments ls).length, a.1 ∈ (fragments ls).get i := by
    intro a
    obtain ⟨g, hgs, hag⟩ := good.covers a.1 a.2
    obtain ⟨i, hi⟩ := List.mem_iff_get.mp hgs
    exact ⟨i, hi ▸ hag⟩
  have hidx : ∀ a : {x : Polyline // x ∈ ls},
      a.1 ∈ (fragments ls).get (hex a).choose := fun a => (hex a).choose_spec
  have hresp : ∀ a b : {x : Polyline // x ∈ ls},
      ConnIn ls a.1 b.1 → (hex a).choose = (hex b).choose := by
    intro a b hconn
    have hb1 : b.1 ∈ (fragments ls).get (hex a).choose :=
      good_chain good hl hconn (hidx a)
    exact good_uniq_idx good hl hb1 (hidx b)
  have hbij : Function.Bijective
      (Quotient.lift (fun a => (hex a).choose) hresp :
        Quotient (connSetoid ls) → Fin (fragments ls).length) := by
    constructor
    · intro q1 q2
      refine Quotient.inductionOn₂ q1 q2 ?_
      intro a b hEq
      have hEq' : (hex a).choose = (hex b).choose := hEq
      have hb : b.1 ∈ (fragments ls).get (hex a).choose := by
        rw [hEq']
        exact hidx b
      have hconn : ConnIn ls a.1 b.1 :=
        good.conn _ (List.get_mem (fragments ls) _ _) a.1 (hidx a) b.1 hb
      exact Quotient.sound hconn
    · intro i
      have hne : (fragments ls).get i ≠ [] :=
        good.nonempty _ (List.get_mem (fragments ls) i.1 i.2)
      obtain ⟨y, hy⟩ := List.exists_mem_of_ne_nil _ hne
      have hy_ls : y ∈ ls :=
        good.mem_sub _ (List.get_mem (fragments ls) i.1 i.2) y hy
      refine ⟨Quotient.mk (connSetoid ls) ⟨y, hy_ls⟩, ?_⟩
      exact good_uniq_idx good hl (hidx ⟨y, hy_ls⟩) hy
  have hcard := Nat.card_eq_of_bijective _ hbij
  rw [hcard]
  simp [Nat.card_eq_fintype_card]

theorem fragments_ne_nil {ls : List Polyline} (hne : ls ≠ []) :
    fragments ls ≠ [] := by
  obtain ⟨x, xs, rfl⟩ := List.exists_cons_of_ne_nil hne
  simp [fragments, insertLine]

theorem fragments_eq_one_iff (ls : List Polyline) (hne : ls ≠ [])
    (hl : ∀ l ∈ ls, l ≠ []) :
    (fragments ls).length = 1 ↔ ∀ a ∈ ls, ∀ b ∈ ls, ConnIn ls a b := by
  have good := fragments_good ls
  constructor
  · intro h1 a ha b hb
    obtain ⟨g, hG⟩ := List.length_eq_one.mp h1
    obtain ⟨ga, hga_mem, haga⟩ := good.covers a ha
    obtain ⟨gb, hgb_mem, hbgb⟩ := good.covers b hb
    rw [hG] at hga_mem hgb_mem
    have hga : ga = g := by simpa using hga_mem
    have hgb : gb = g := by simpa using hgb_mem
    have hg_mem : g ∈ fragments ls := by rw [hG]; simp
    exact good.conn g hg_mem a (hga ▸ haga) b (hgb ▸ hbgb)
  · intro hcall
    have hGne : fragments ls ≠ [] := fragments_ne_nil hne
    have hpos : 0 < (fragments ls).length := List.length_pos.mpr hGne
    by_contra hlen1
    have h2 : 2 ≤ (fragments ls).length := by omega
    have h0 : (0 : ℕ) < (fragments ls).length := by omega
    have h1 : (1 : ℕ) < (fragments ls).length := by omega
    have hg0ne : (fragments ls).get ⟨0, h0⟩ ≠ [] :=
      good.nonempty _ (List.get_mem (fragments ls) 0 h0)
    have hg1ne : (fragments ls).get ⟨1, h1⟩ ≠ [] :=
      good.nonempty _ (List.get_mem (fragments ls) 1 h1)
    obtain ⟨a0, ha0⟩ := List.exists_mem_of_ne_nil _ hg0ne
    obtain ⟨a1, ha1⟩ := List.exists_mem_of_ne_nil _ hg1ne
    have ha0_ls : a0 ∈ ls :=
      good.mem_sub _ (List.get_mem (fragments ls) 0 h0) a0 ha0
    have ha1_ls : a1 ∈ ls :=
      good.mem_sub _ (List.get_mem (fragments ls) 1 h1) a1 ha1
    have hconn := hcall a0 ha0_ls a1 ha1_ls
    have hmem := good_chain good hl hconn ha0
    have hEq := good_uniq_idx good hl hmem ha1
    have : (0 : ℕ) = 1 := congrArg Fin.val hEq
    cases this

/-- Claim C2: for every route whose way geometries are merged, the merge
joins lines sharing an endpoint under exact coordinate equality into
single fragments; the fragment count equals 1 exactly when all the way
geometries chain into a single connected whole via shared endpoints, in
general equals the number of connected components of the shared-endpoint
graph, and every input line is preserved inside the fragments. -/
theorem c2_merge_fragment_count (ls : List Polyline) (hne : ls ≠ [])
    (hl : ∀ l ∈ ls, l ≠ []) :
    ((fragments ls).length = 1 ↔ ∀ a ∈ ls, ∀ b ∈ ls, ConnIn ls a b)
    ∧ (fragments ls).length = Nat.card (Quotient (connSetoid ls))
    ∧ (∀ a : Polyline, a ∈ ls ↔ ∃ g ∈ fragments ls, a ∈ g) := by
  refine ⟨fragments_eq_one_iff ls hne hl, fragments_length_eq_card ls hl, ?_⟩
  intro a
  constructor
  · exact fun ha => (fragments_good ls).covers a ha
  · rintro ⟨g, hg, hag⟩
    exact (fragments_good ls).mem_sub g hg a hag

/-- Witness for C2, at a route of two way geometries that chain through
the shared endpoint (0, 1). -/
theorem c2_witness :
    (([[(0, 0), (0, 1)], [(0, 1), (0, 2)]] : List Polyline) ≠ []
        ∧ ∀ l ∈ ([[(0, 0), (0, 1)], [(0, 1), (0, 2)]] : List Polyline), l ≠ [])
    ∧ (((fragments ([[(0, 0), (0, 1)], [(0, 1), (0, 2)]] : List Polyline)).length = 1
          ↔ ∀ a ∈ ([[(0, 0), (0, 1)], [(0, 1), (0, 2)]] : List Polyline),
              ∀ b ∈ ([[(0, 0), (0, 1)], [(0, 1), (0, 2)]] : List Polyline),
                ConnIn ([[(0, 0), (0, 1)], [(0, 1), (0, 2)]] : List Polyline) a b)
        ∧ (fragments ([[(0, 0), (0, 1)], [(0, 1), (0, 2)]] : List Polyline)).length
            = Nat.card (Quotient (connSetoid
                ([[(0, 0), (0, 1)], [(0, 1), (0, 2)]] : List Polyline)))
        ∧ (∀ a : Polyline,
            a ∈ ([[(0, 0), (0, 1)], [(0, 1), (0, 2)]] : List Polyline)
              ↔ ∃ g ∈ fragments ([[(0, 0), (0, 1)], [(0, 1), (0, 2)]] : List Polyline),
                  a ∈ g)) :=
  ⟨⟨by decide, by decide⟩,
    c2_merge_fragment_count ([[(0, 0), (0, 1)], [(0, 1), (0, 2)]] : List Polyline)
      (by decide) (by decide)⟩

/-! ### Lemmas about dictionaries -/

theorem alookup_eq_none {α : Type} {k : Int} {l : List (Int × α)} :
    alookup k l = none ↔ ∀ p ∈ l, p.1 ≠ k := by
  simp [alookup, List.find?_eq_none]

theorem nodupKeys_eq_of_mem {α : Type} {l : List (Int × α)}
    (hk : (l.map Prod.fst).Nodup) {k : Int} {a b : α}
    (ha : (k, a) ∈ l) (hb : (k, b) ∈ l) : a = b := by
  induction l with
  | nil => cases ha
  | cons p t ih =>
    rw [List.map_cons, List.nodup_cons] at hk
    rcases List.mem_cons.mp ha with ha1 | hat
    · rcases List.mem_cons.mp hb with hb1 | hbt
      · rw [← ha1] at hb1
        injection hb1 with _ h3
        exact h3.symm
      · exfalso
        apply hk.1
        have hb' : k ∈ List.map Prod.fst t := by
          simpa using List.mem_map_of_mem Prod.fst hbt
        rw [← ha1]
        exact hb'
    · rcases List.mem_cons.mp hb with hb1 | hbt
      · exfalso
        apply hk.1
        have ha' : k ∈ List.map Prod.fst t := by
          simpa using List.mem_map_of_mem Prod.fst hat
        rw [← hb1]
        exact ha'
      · exact ih hk.2 hat hbt

/-! ### Lemmas about step 4 of process_osm_file (claim C1) -/

theorem geomsOf_ne_nil_iff {way_geoms : List (Int × Polyline)} {d : RouteDict} :
    geomsOf way_geoms d ≠ [] ↔
      (dgetWays d).any (fun w => (alookup w way_geoms).isSome) = true := by
  rw [Ne, geomsOf, List.filterMap_eq_nil_iff, List.any_eq_true]
  constructor
  · intro h
    by_contra h2
    apply h
    intro a ha
    by_contra h3
    exact h2 ⟨a, ha, Option.ne_none_iff_isSome.mp h3⟩
  · rintro ⟨a, ha, hsome⟩ hall
    rw [hall a ha] at hsome
    cases hsome

theorem assembleStep_mem_out {way_geoms : List (Int × Polyline)}
    {l : List (Int × RouteDict)} {rid : Int} {d' : RouteDict} :
    (rid, d') ∈ (assembleStep way_geoms l).1 ↔
      ∃ d0, (rid, d0) ∈ l ∧ geomsOf way_geoms d0 ≠ [] ∧
        d' = dset d0 "geometries" (Val.geoms (geomsOf way_geoms d0)) := by
  induction l with
  | nil => simp [assembleStep]
  | cons p t ih =>
    obtain ⟨rid1, d1⟩ := p
    cases hgs : (geomsOf way_geoms d1).isEmpty with
    | true =>
      have hnil : geomsOf way_geoms d1 = [] := List.isEmpty_iff.mp hgs
      simp only [assembleStep, hgs, if_true]
      rw [ih]
      constructor
      · rintro ⟨d0, hd0, hne, hEq⟩
        exact ⟨d0, List.mem_cons_of_mem _ hd0, hne, hEq⟩
      · rintro ⟨d0, hd0, hne, hEq⟩
        rcases List.mem_cons.mp hd0 with h1 | h1
        · injection h1 with _ h3
          rw [h3] at hne
          exact absurd hnil hne
        · exact ⟨d0, h1, hne, hEq⟩
    | false =>
      have hne1 : geomsOf way_geoms d1 ≠ [] := by
        intro h
        rw [h] at hgs
        cases hgs
      simp only [assembleStep, hgs, if_false, Bool.false_eq_true]
      rw [List.mem_cons, ih]
      constructor
      · rintro (h1 | ⟨d0, hd0, hne, hEq⟩)
        · injection h1 with h2 h3
          refine ⟨d1, ?_, hne1, h3⟩
          rw [h2]
          exact List.mem_cons_self _ _
        · exact ⟨d0, List.mem_cons_of_mem _ hd0, hne, hEq⟩
      · rintro ⟨d0, hd0, hne, hEq⟩
        rcases List.mem_cons.mp hd0 with h1 | h1
        · left
          injection h1 with h2 h3
          rw [h2, hEq, h3]
        · right
          exact ⟨d0, h1, hne, hEq⟩

theorem assembleStep_skip_mem {way_geoms : List (Int × Polyline)}
    {l : List (Int × RouteDict)} {rid : Int} {d : RouteDict}
    (hm : (rid, d) ∈ l) (hnil : geomsOf way_geoms d = []) :
    (routeName d, rid) ∈ (assembleStep way_geoms l).2 := by
  induction l with
  | nil => cases hm
  | cons p t ih =>
    obtain ⟨rid1, d1⟩ := p
    rcases List.mem_cons.mp hm with h1 | h1
    · injection h1 with h2 h3
      rw [h2, h3]
      have hgs : (geomsOf way_geoms d1).isEmpty = true := by
        rw [List.isEmpty_iff, ← h3]
        exact hnil
      simp [assembleStep, hgs]
    · cases hgs : (geomsOf way_geoms d1).isEmpty with
      | true =>
        simp only [assembleStep, hgs, if_true]
        exact List.mem_cons_of_mem _ (ih h1)
      | false =>
        simp only [assembleStep, hgs, if_false, Bool.false_eq_true]
        exact ih h1

/-- Claim C1: for every accepted route, an assembled route is produced
if and only if at least one entry of its way list resolved in the
way-geometry mapping; a route whose every way is unresolvable is
excluded from the output mapping and logged with its name and id (the
assembly step is a total function: it raises no exception). -/
theorem c1_assembled_iff_resolvable (way_geoms : List (Int × Polyline))
    (routes : List (Int × RouteDict)) (rid : Int) (d : RouteDict)
    (hk : (routes.map Prod.fst).Nodup) (hm : (rid, d) ∈ routes) :
    ((∃ d', (rid, d') ∈ (assembleStep way_geoms routes).1)
        ↔ (dgetWays d).any (fun w => (alookup w way_geoms).isSome) = true)
    ∧ ((dgetWays d).any (fun w => (alookup w way_geoms).isSome) = false
        → (∀ d', (rid, d') ∉ (assembleStep way_geoms routes).1)
          ∧ (routeName d, rid) ∈ (assembleStep way_geoms routes).2) := by
  have hiff : (∃ d', (rid, d') ∈ (assembleStep way_geoms routes).1)
      ↔ (dgetWays d).any (fun w => (alookup w way_geoms).isSome) = true := by
    constructor
    · rintro ⟨d', hd'⟩
      obtain ⟨d0, hd0, hne, _⟩ := assembleStep_mem_out.mp hd'
      have h0 : d0 = d := nodupKeys_eq_of_mem hk hd0 hm
      rw [← geomsOf_ne_nil_iff, ← h0]
      exact hne
    · intro hany
      have hne := geomsOf_ne_nil_iff.mpr hany
      exact ⟨_, assembleStep_mem_out.mpr ⟨d, hm, hne, rfl⟩⟩
  refine ⟨hiff, ?_⟩
  intro hfalse
  have hnil : geomsOf way_geoms d = [] := by
    by_contra h
    have h2 := geomsOf_ne_nil_iff.mp h
    rw [hfalse] at h2
    cases h2
  constructor
  · intro d' hd'
    have := hiff.mp ⟨d', hd'⟩
    rw [hfalse] at this
    cases this
  · exact assembleStep_skip_mem hm hnil

/-- Witness for C1: one route whose single way resolves is assembled,
obtained by applying the claim theorem at a concrete input. -/
theorem c1_witness :
    ∃ d', ((100 : Int), d') ∈
      (assembleStep ([(10, [(0, 0), (0, 1)])] : List (Int × Polyline))
        ([((100 : Int),
            [("name", Val.s "Line 5"), ("ref", Val.s ""), ("type", Val.s "bus"),
             ("ways", Val.ways [10])])] : List (Int × RouteDict))).1 :=
  (c1_assembled_iff_resolvable
      ([(10, [(0, 0), (0, 1)])] : List (Int × Polyline))
      ([((100 : Int),
          [("name", Val.s "Line 5"), ("ref", Val.s ""), ("type", Val.s "bus"),
           ("ways", Val.ways [10])])] : List (Int × RouteDict))
      100
      ([("name", Val.s "Line 5"), ("ref", Val.s ""), ("type", Val.s "bus"),
        ("ways", Val.ways [10])] : RouteDict)
      (by decide) (by decide)).1.mpr (by decide)

/-! ### Lemmas about the way pass (claim C5) -/

theorem processWay_eq (store : List (Int × Coord)) (w : OsmWay) :
    processWay store w =
      (if 2 ≤ (resolvedCoords store w).length
         then some (w.wid, resolvedCoords store w) else none,
       if (resolvedCoords store w).length < 2 ∧ 0 < missingCount store w
         then some (w.wid, missingCount store w) else none) := by
  by_cases h : 2 ≤ (resolvedCoords store w).length
  · have hne : resolvedCoords store w ≠ [] := by
      intro h0
      rw [h0] at h
      simp at h
    have h2 : ¬((resolvedCoords store w).length < 2 ∧ 0 < missingCount store w) := by
      intro hc
      omega
    simp only [processWay]
    rw [if_pos ⟨hne, h⟩, if_pos h, if_neg h2]
  · have h2 : ¬(resolvedCoords store w ≠ [] ∧ 2 ≤ (resolvedCoords store w).length) := by
      intro hc
      exact h hc.2
    by_cases hm : 0 < missingCount store w
    · simp only [processWay]
      rw [if_neg h2, if_pos hm, if_neg h, if_pos ⟨by omega, hm⟩]
    · simp only [processWay]
      rw [if_neg h2, if_neg hm, if_neg h, if_neg (fun hc => hm hc.2)]

theorem length_filterMap_add_countP_none {α β : Type} (f : α → Option β)
    (l : List α) :
    (l.filterMap f).length + l.countP (fun a => (f a).isNone) = l.length := by
  induction l with
  | nil => simp
  | cons a t ih =>
    cases hfa : f a with
    | none =>
      simp [List.filterMap_cons, List.countP_cons, hfa]
      omega
    | some b =>
      simp [List.filterMap_cons, List.countP_cons, hfa]
      omega

theorem resolved_add_missing (store : List (Int × Coord)) (w : OsmWay) :
    (resolvedCoords store w).length + missingCount store w
      = w.nodeRefs.length := by
  rw [resolvedCoords, missingCount]
  have h := length_filterMap_add_countP_none
    (fun nref => alookup nref store) w.nodeRefs
  simpa using h

theorem way_pass_mem_out {store : List (Int × Coord)} {ways : List OsmWay}
    {i : Int} {g : Polyline} :
    (i, g) ∈ (way_pass store ways).1 ↔
      ∃ w0 ∈ ways, w0.wid = i ∧ 2 ≤ (resolvedCoords store w0).length
        ∧ g = resolvedCoords store w0 := by
  induction ways with
  | nil => simp [way_pass]
  | cons w t ih =>
    by_cases h : 2 ≤ (resolvedCoords store w).length
    · have h2 : ¬((resolvedCoords store w).length < 2
          ∧ 0 < missingCount store w) := by
        intro hc
        omega
      have hred : way_pass store (w :: t) =
          ((w.wid, resolvedCoords store w) :: (way_pass store t).1,
            (way_pass store t).2) := by
        simp only [way_pass, processWay_eq, if_pos h, if_neg h2]
      rw [hred]
      constructor
      · intro h1
        rcases List.mem_cons.mp h1 with h1 | h1
        · injection h1 with h3 h4
          exact ⟨w, List.mem_cons_self _ _, h3.symm, h, h4⟩
        · obtain ⟨w0, hw0, hwid, hlen, hg⟩ := ih.mp h1
          exact ⟨w0, List.mem_cons_of_mem _ hw0, hwid, hlen, hg⟩
      · rintro ⟨w0, hw0, hwid, hlen, hg⟩
        rcases List.mem_cons.mp hw0 with rfl | hw0t
        · exact List.mem_cons.mpr (Or.inl (by rw [hwid, hg]))
        · exact List.mem_cons.mpr (Or.inr (ih.mpr ⟨w0, hw0t, hwid, hlen, hg⟩))
    · have hred : (way_pass store (w :: t)).1 = (way_pass store t).1 := by
        by_cases hm : 0 < missingCount store w
        · have hc : (resolvedCoords store w).length < 2
              ∧ 0 < missingCount store w := ⟨by omega, hm⟩
          simp only [way_pass, processWay_eq, if_neg h, if_pos hc]
        · have hnc : ¬((resolvedCoords store w).length < 2
              ∧ 0 < missingCount store w) := fun hc => hm hc.2
          simp only [way_pass, processWay_eq, if_neg h, if_neg hnc]
      rw [hred, ih]
      constructor
      · rintro ⟨w0, hw0, hwid, hlen, hg⟩
        exact ⟨w0, List.mem_cons_of_mem _ hw0, hwid, hlen, hg⟩
      · rintro ⟨w0, hw0, hwid, hlen, hg⟩
        rcases List.mem_cons.mp hw0 with rfl | hw0t
        · exact absurd hlen h
        · exact ⟨w0, hw0t, hwid, hlen, hg⟩

theorem way_pass_mem_warn {store : List (Int × Coord)} {ways : List OsmWay}
    {w : OsmWay} (hm : w ∈ ways)
    (hlen : (resolvedCoords store w).length < 2)
    (hmiss : 0 < missingCount store w) :
    (w.wid, missingCount store w) ∈ (way_pass store ways).2 := by
  induction ways with
  | nil => cases hm
  | cons w1 t ih =>
    rcases List.mem_cons.mp hm with rfl | h1
    · have hnl : ¬2 ≤ (resolvedCoords store w).length := by omega
      have hc : (resolvedCoords store w).length < 2
          ∧ 0 < missingCount store w := ⟨hlen, hmiss⟩
      have hred : (way_pass store (w :: t)).2 =
          (w.wid, missingCount store w) :: (way_pass store t).2 := by
        simp only [way_pass, processWay_eq, if_neg hnl, if_pos hc]
      rw [hred]
      exact List.mem_cons_self _ _
    · by_cases hl1 : 2 ≤ (resolvedCoords store w1).length
      · have h2 : ¬((resolvedCoords store w1).length < 2
            ∧ 0 < missingCount store w1) := by
          intro hc
          omega
        have hred : (way_pass store (w1 :: t)).2 = (way_pass store t).2 := by
          simp only [way_pass, processWay_eq, if_pos hl1, if_neg h2]
        rw [hred]
        exact ih h1
      · by_cases hm1 : 0 < missingCount store w1
        · have hc1 : (resolvedCoords store w1).length < 2
              ∧ 0 < missingCount store w1 := ⟨by omega, hm1⟩
          have hred : (way_pass store (w1 :: t)).2 =
              (w1.wid, missingCount store w1) :: (way_pass store t).2 := by
            simp only [way_pass, processWay_eq, if_neg hl1, if_pos hc1]
          rw [hred]
          exact List.mem_cons_of_mem _ (ih h1)
        · have hnc1 : ¬((resolvedCoords store w1).length < 2
              ∧ 0 < missingCount store w1) := fun hc => hm1 hc.2
          have hred : (way_pass store (w1 :: t)).2 = (way_pass store t).2 := by
            simp only [way_pass, processWay_eq, if_neg hl1, if_neg hnc1]
          rw [hred]
          exact ih h1

/-- Counterexample to C5 as stated: a way with a single node reference
that resolves in the store is dropped (its resolved count is 1 < 2) yet
no warning at all is emitted for it, because the warning branch fires
only when the count of missing nodes is positive. -/
theorem c5_counterexample :
    processWay ([((5 : Int), ((0 : ℚ), (0 : ℚ)))]) ⟨1, [5]⟩ = (none, none)
    ∧ (way_pass ([((5 : Int), ((0 : ℚ), (0 : ℚ)))]) [⟨1, [5]⟩]).1 = []
    ∧ (way_pass ([((5 : Int), ((0 : ℚ), (0 : ℚ)))]) [⟨1, [5]⟩]).2 = [] :=
  ⟨by decide, by decide, by decide⟩

/-- Claim C5 (amended): a way is present in the way-geometry mapping iff
at least 2 of its node references resolved in the coordinate store; a
retained geometry is the resolved coordinates in node-reference order
with length equal to the resolved-reference count; and every dropped way
that has at least one missing node is reported with a warning carrying
the count of its missing nodes (a dropped way all of whose references
resolved is dropped silently). -/
theorem c5_way_retention (store : List (Int × Coord)) (ways : List OsmWay)
    (w : OsmWay) (hk : (ways.map OsmWay.wid).Nodup) (hm : w ∈ ways) :
    ((∃ g, (w.wid, g) ∈ (way_pass store ways).1)
        ↔ 2 ≤ (resolvedCoords store w).length)
    ∧ (∀ g, (w.wid, g) ∈ (way_pass store ways).1 →
        g = resolvedCoords store w
          ∧ g.length = (resolvedCoords store w).length)
    ∧ ((resolvedCoords store w).length < 2 ∧ 0 < missingCount store w →
        (w.wid, missingCount store w) ∈ (way_pass store ways).2)
    ∧ (resolvedCoords store w).length + missingCount store w
        = w.nodeRefs.length := by
  refine ⟨⟨?_, ?_⟩, ?_, ?_, resolved_add_missing store w⟩
  · rintro ⟨g, hg⟩
    obtain ⟨w0, hw0, hwid, hlen, _⟩ := way_pass_mem_out.mp hg
    have : w0 = w := List.inj_on_of_nodup_map hk hw0 hm hwid
    rw [← this]
    exact hlen
  · intro hlen
    exact ⟨_, way_pass_mem_out.mpr ⟨w, hm, rfl, hlen, rfl⟩⟩
  · intro g hg
    obtain ⟨w0, hw0, hwid, _, hgeq⟩ := way_pass_mem_out.mp hg
    have : w0 = w := List.inj_on_of_nodup_map hk hw0 hm hwid
    rw [this] at hgeq
    exact ⟨hgeq, by rw [hgeq]⟩
  · intro hc
    exact way_pass_mem_warn hm hc.1 hc.2

/-- Witness for C5: a way with two resolved node references is retained,
obtained by applying the amended claim theorem at a concrete input. -/
theorem c5_witness :
    ∃ g, ((10 : Int), g) ∈
      (way_pass ([((1 : Int), ((0 : ℚ), (0 : ℚ))),
                  ((2 : Int), ((0 : ℚ), (1 : ℚ)))])
        [⟨10, [1, 2]⟩]).1 :=
  (c5_way_retention
      ([((1 : Int), ((0 : ℚ), (0 : ℚ))), ((2 : Int), ((0 : ℚ), (1 : ℚ)))])
      [⟨10, [1, 2]⟩] ⟨10, [1, 2]⟩ (by decide) (by decide)).1.mpr (by decide)

/-! ### Lemmas about the relation pass (claims C7, C8, C9) -/

theorem alookup_append_self {α : Type} {k : Int} {l : List (Int × α)} (v : α)
    (h : alookup k l = none) : alookup k (l ++ [(k, v)]) = some v := by
  have h1 : l.find? (fun p => p.1 == k) = none := by
    cases hf : l.find? (fun p => p.1 == k) with
    | none => rfl
    | some p =>
      rw [alookup, hf] at h
      cases h
  rw [alookup, List.find?_append, h1]
  simp [List.find?]

theorem upsert_fresh {α : Type} {k : Int} {l : List (Int × α)} (v : α)
    (h : alookup k l = none) : upsert k v l = l ++ [(k, v)] := by
  have h2 : ∀ p ∈ l, p.1 ≠ k := alookup_eq_none.mp h
  have h3 : l.any (fun p => p.1 == k) = false := by
    rw [List.any_eq_false]
    intro p hp
    simpa using h2 p hp
  rw [upsert, h3]
  simp

theorem pt_relation_lookup_accepted {routes : List (Int × RouteDict)}
    {r : OsmRelation} (hfresh : alookup r.rid routes = none)
    (hacc : acceptsRelation r = true) :
    alookup r.rid (pt_relation routes r) = some (routeDictOf r) := by
  rw [pt_relation, if_pos hacc, upsert_fresh _ hfresh]
  exact alookup_append_self _ hfresh

theorem acceptsRelation_iff {r : OsmRelation} :
    acceptsRelation r = true ↔
      tagGet r.tags "type" = some "route"
        ∧ ∃ t, tagGet r.tags "route" = some t ∧ t ∈ TRANSPORT_TYPES := by
  rw [acceptsRelation]
  cases hrt : tagGet r.tags "route" with
  | none => simp [hrt]
  | some t => simp [hrt]

/-- Claim C7: a relation is recorded in the route mapping iff its tag
`type` equals "route" and its tag `route` is one of the six transport
types; any other relation leaves the mapping untouched (silently
ignored); and an accepted relation's stored way list is exactly its
members of kind "w", in declared order, other member kinds dropped. -/
theorem c7_relation_filter (routes : List (Int × RouteDict)) (r : OsmRelation)
    (hfresh : alookup r.rid routes = none) :
    ((tagGet r.tags "type" = some "route"
        ∧ ∃ t, tagGet r.tags "route" = some t ∧ t ∈ TRANSPORT_TYPES)
      → alookup r.rid (pt_relation routes r) = some (routeDictOf r)
        ∧ dgetWays (routeDictOf r)
            = (r.members.filter (fun m => m.mtype == "w")).map OsmMember.ref)
    ∧ (¬(tagGet r.tags "type" = some "route"
          ∧ ∃ t, tagGet r.tags "route" = some t ∧ t ∈ TRANSPORT_TYPES)
      → pt_relation routes r = routes) := by
  constructor
  · intro hacc
    refine ⟨pt_relation_lookup_accepted hfresh (acceptsRelation_iff.mpr hacc), ?_⟩
    simp [dgetWays, dlookup, routeDictOf, wayMembers]
  · intro hns
    rw [pt_relation, if_neg (fun hacc => hns (acceptsRelation_iff.mp hacc))]

/-- Witness for C7: a bus relation with one way member and one node
member is recorded with only the way reference, obtained by applying the
claim theorem at a concrete input. -/
theorem c7_witness :
    alookup 100 (pt_relation []
        ⟨100, [("type", "route"), ("route", "bus"), ("name", "Line 5")],
         [⟨"w", 10⟩, ⟨"n", 7⟩]⟩)
      = some (routeDictOf
        ⟨100, [("type", "route"), ("route", "bus"), ("name", "Line 5")],
         [⟨"w", 10⟩, ⟨"n", 7⟩]⟩)
    ∧ dgetWays (routeDictOf
        ⟨100, [("type", "route"), ("route", "bus"), ("name", "Line 5")],
         [⟨"w", 10⟩, ⟨"n", 7⟩]⟩)
      = (((⟨100, [("type", "route"), ("route", "bus"), ("name", "Line 5")],
            [⟨"w", 10⟩, ⟨"n", 7⟩]⟩ : OsmRelation)).members.filter
          (fun m => m.mtype == "w")).map OsmMember.ref :=
  (c7_relation_filter []
      ⟨100, [("type", "route"), ("route", "bus"), ("name", "Line 5")],
       [⟨"w", 10⟩, ⟨"n", 7⟩]⟩
      (by decide)).1 ⟨by decide, "bus", by decide, by decide⟩

/-- Counterexample to C8 as stated: an accepted relation whose `name`
tag is present but empty keeps the empty string as its name; the
synthetic `route_<id>` label is not applied. -/
theorem c8_counterexample :
    (alookup 7 (pt_relation []
        ⟨7, [("type", "route"), ("route", "bus"), ("name", "")],
         [⟨"w", 1⟩]⟩)).map (fun d => dgetS d "name" "?") = some ""
    ∧ ("" : String) ≠ "route_" ++ toString (7 : Int) :=
  ⟨by decide, by decide⟩

/-- Claim C8 (amended): for an accepted relation the stored name falls
back to `"route_" + id` only when the `name` tag is absent; a present
but empty `name` tag is kept as the empty string. -/
theorem c8_name_fallback (routes : List (Int × RouteDict)) (r : OsmRelation)
    (hfresh : alookup r.rid routes = none) (hacc : acceptsRelation r = true) :
    alookup r.rid (pt_relation routes r) = some (routeDictOf r)
    ∧ (tagGet r.tags "name" = none →
        dgetS (routeDictOf r) "name" "" = "route_" ++ toString r.rid)
    ∧ (tagGet r.tags "name" = some "" →
        dgetS (routeDictOf r) "name" "" = "") := by
  refine ⟨pt_relation_lookup_accepted hfresh hacc, ?_, ?_⟩
  · intro h
    simp [dgetS, dlookup, routeDictOf, tagGetD, h]
  · intro h
    simp [dgetS, dlookup, routeDictOf, tagGetD, h]

/-- Witness for C8: a tram relation with no name tag gets the synthetic
label, obtained by applying the amended claim theorem. -/
theorem c8_witness :
    dgetS (routeDictOf
        ⟨9, [("type", "route"), ("route", "tram")], [⟨"w", 3⟩]⟩) "name" ""
      = "route_" ++ toString (9 : Int) :=
  ((c8_name_fallback [] ⟨9, [("type", "route"), ("route", "tram")], [⟨"w", 3⟩]⟩
      (by decide) (by decide)).2.1) (by decide)

/-- Counterexample to C9 as stated: an accepted relation with no way
members is recorded by the relation pass (with an empty way list), not
dropped from the mapping. -/
theorem c9_counterexample :
    alookup 11 (pt_relation []
        ⟨11, [("type", "route"), ("route", "bus"), ("name", "Empty")],
         [⟨"n", 4⟩]⟩)
      = some (routeDictOf
        ⟨11, [("type", "route"), ("route", "bus"), ("name", "Empty")],
         [⟨"n", 4⟩]⟩)
    ∧ dgetWays (routeDictOf
        ⟨11, [("type", "route"), ("route", "bus"), ("name", "Empty")],
         [⟨"n", 4⟩]⟩) = [] :=
  ⟨by decide, by decide⟩

/-- Claim C9 (amended): an accepted relation whose member list contains
no ways is still recorded with an empty way list by the relation pass;
it is excluded later, by the geometry-assignment step, which omits it
from the assembled output and logs it as skipped. -/
theorem c9_empty_ways_recorded (routes : List (Int × RouteDict))
    (r : OsmRelation) (way_geoms : List (Int × Polyline))
    (hfresh : alookup r.rid routes = none) (hacc : acceptsRelation r = true)
    (hnw : r.members.filter (fun m => m.mtype == "w") = []) :
    alookup r.rid (pt_relation routes r) = some (routeDictOf r)
    ∧ dgetWays (routeDictOf r) = []
    ∧ (∀ d', (r.rid, d') ∉ (assembleStep way_geoms (pt_relation routes r)).1)
    ∧ (routeName (routeDictOf r), r.rid)
        ∈ (assembleStep way_geoms (pt_relation routes r)).2 := by
  have hways : dgetWays (routeDictOf r) = [] := by
    simp [dgetWays, dlookup, routeDictOf, wayMembers, hnw]
  have hlook := pt_relation_lookup_accepted hfresh hacc
  have hmem : (r.rid, routeDictOf r) ∈ pt_relation routes r := by
    rw [pt_relation, if_pos hacc, upsert_fresh _ hfresh]
    exact List.mem_append_right _ (List.mem_singleton.mpr rfl)
  have hnil : geomsOf way_geoms (routeDictOf r) = [] := by
    rw [geomsOf, hways]
    rfl
  refine ⟨hlook, hways, ?_, assembleStep_skip_mem hmem hnil⟩
  intro d' hd'
  obtain ⟨d0, hd0, hne, _⟩ := assembleStep_mem_out.mp hd'
  rw [pt_relation, if_pos hacc, upsert_fresh _ hfresh] at hd0
  rcases List.mem_append.mp hd0 with h1 | h1
  · exact (alookup_eq_none.mp hfresh _ h1) rfl
  · have h2 : (r.rid, d0) = (r.rid, routeDictOf r) := by simpa using h1
    injection h2 with _ h3
    rw [h3] at hne
    exact hne hnil

/-- Witness for C9: a bus relation whose only member is a node is logged
as skipped by the assembly step, obtained by applying the amended claim
theorem. -/
theorem c9_witness :
    (routeName (routeDictOf
        ⟨11, [("type", "route"), ("route", "bus"), ("name", "Empty")],
         [⟨"n", 4⟩]⟩), (11 : Int))
      ∈ (assembleStep [] (pt_relation []
          ⟨11, [("type", "route"), ("route", "bus"), ("name", "Empty")],
           [⟨"n", 4⟩]⟩)).2 :=
  (c9_empty_ways_recorded []
      ⟨11, [("type", "route"), ("route", "bus"), ("name", "Empty")],
       [⟨"n", 4⟩]⟩ []
      (by decide) (by decide) (by decide)).2.2.2

/-! ### The main pipeline and the missing import (claim C3) -/

/-- Claim C3: whenever the input passes validation and the processing
step yields at least one route with geometry, the main flow reaches the
statement importing `get_way_geometries` from the processor module,
which defines no such name, so the run ends in an import error and never
reaches the export steps. -/
theorem c3_import_error (f : OsmFile)
    (hv : (validate_osm_file f).1 = true)
    (hr : (process_osm_file f).1 ≠ []) :
    mainRun f = MainOutcome.importErrorAt "get_way_geometries" := by
  have hie : (process_osm_file f).1.isEmpty = false := by
    cases hie : (process_osm_file f).1.isEmpty with
    | true => exact absurd (List.isEmpty_iff.mp hie) hr
    | false => rfl
  have hcontains : osm_processor_defs.contains "get_way_geometries" = false := by
    decide
  simp only [mainRun]
  rw [hv, hie, hcontains]
  simp

/-- Witness for C3: a file with one valid bus route reaches the import
and ends in the import error, obtained by applying the claim theorem. -/
theorem c3_witness :
    mainRun ⟨[⟨1, some (0, 0)⟩, ⟨2, some (0, 1)⟩], [⟨10, [1, 2]⟩],
        [⟨100, [("type", "route"), ("route", "bus"), ("name", "Line 5")],
          [⟨"w", 10⟩]⟩]⟩
      = MainOutcome.importErrorAt "get_way_geometries" :=
  c3_import_error
    ⟨[⟨1, some (0, 0)⟩, ⟨2, some (0, 1)⟩], [⟨10, [1, 2]⟩],
      [⟨100, [("type", "route"), ("route", "bus"), ("name", "Line 5")],
        [⟨"w", 10⟩]⟩]⟩
    (by decide) (by decide)

/-! ### Lemmas about the exporters (claim C4) -/

theorem export_shp_loop_records (projLen : Frags → Option ℚ)
    (way_geoms : List (Int × Polyline)) (routes : List (Int × RouteDict)) :
    (export_shp_loop projLen way_geoms routes).1
      = routes.filterMap
          (fun p => (routeRecordE projLen way_geoms p.2).toOption)
    ∧ (export_shp_loop projLen way_geoms routes).2
      = routes.filterMap (fun p =>
          match routeRecordE projLen way_geoms p.2 with
          | Except.ok _ => none
          | Except.error _ => some (skipName p.2)) := by
  induction routes with
  | nil => exact ⟨rfl, rfl⟩
  | cons p t ih =>
    obtain ⟨rid, d⟩ := p
    cases hr : routeRecordE projLen way_geoms d with
    | ok rec =>
      constructor
      · simp [export_shp_loop, hr, List.filterMap_cons, ih.1, Except.toOption]
      · simp [export_shp_loop, hr, List.filterMap_cons, ih.2]
    | error e =>
      constructor
      · simp [export_shp_loop, hr, List.filterMap_cons, ih.1, Except.toOption]
      · simp [export_shp_loop, hr, List.filterMap_cons, ih.2]

theorem export_kml_filterMap (routes : List (Int × RouteDict)) :
    export_routes_to_kml routes = routes.filterMap kmlForRoute := by
  induction routes with
  | nil => rfl
  | cons p t ih =>
    cases hk : kmlForRoute p with
    | some f => simp [export_routes_to_kml, hk, List.filterMap_cons, ih]
    | none => simp [export_routes_to_kml, hk, List.filterMap_cons, ih]

/-- Counterexample to C4 as stated: when every route of the batch fails
(here the only route's ways resolve to nothing), the shapefile exporter
raises an exception instead of surfacing an empty result. -/
theorem c4_counterexample :
    export_routes_to_shapefile specProjLen
        [(1, [("name", Val.s "R"), ("ref", Val.s ""), ("type", Val.s "bus"),
              ("ways", Val.ways [99])])] []
      = Except.error "No se generaron geometrias validas para ninguna ruta" := by
  decide

/-- Claim C4 (amended): a per-route failure is caught, recorded in the
skip log under the route's name (or id fallback), and only that route is
dropped — the records of the batch are exactly the per-route successes,
independently of each other; the KML exporter is total and returns the
list of per-route successes (an empty list — not an exception — when no
route is usable); the shapefile exporter instead raises an exception
exactly when zero routes produced a record. -/
theorem c4_export_failure_semantics (projLen : Frags → Option ℚ)
    (way_geoms : List (Int × Polyline)) (routes : List (Int × RouteDict)) :
    (export_shp_loop projLen way_geoms routes).1
      = routes.filterMap
          (fun p => (routeRecordE projLen way_geoms p.2).toOption)
    ∧ (export_shp_loop projLen way_geoms routes).2
      = routes.filterMap (fun p =>
          match routeRecordE projLen way_geoms p.2 with
          | Except.ok _ => none
          | Except.error _ => some (skipName p.2))
    ∧ (export_routes_to_shapefile projLen routes way_geoms
          = Except.error "No se generaron geometrias validas para ninguna ruta"
        ↔ routes.filterMap
            (fun p => (routeRecordE projLen way_geoms p.2).toOption) = [])
    ∧ export_routes_to_kml routes = routes.filterMap kmlForRoute := by
  obtain ⟨h1, h2⟩ := export_shp_loop_records projLen way_geoms routes
  refine ⟨h1, h2, ?_, export_kml_filterMap routes⟩
  cases hie : (export_shp_loop projLen way_geoms routes).1.isEmpty with
  | true =>
    have hnil := List.isEmpty_iff.mp hie
    simp only [export_routes_to_shapefile, hie, if_true]
    constructor
    · intro _
      rw [← h1]
      exact hnil
    · intro _
      trivial
  | false =>
    have hne : (export_shp_loop projLen way_geoms routes).1 ≠ [] := by
      intro h
      rw [h] at hie
      cases hie
    simp only [export_routes_to_shapefile, hie, Bool.false_eq_true, if_false]
    constructor
    · intro h
      cases h
    · intro h
      rw [← h1] at h
      exact absurd h hne

/-! ### Lemmas about the length computation (claim C6) -/

theorem qabs_nonneg (q : ℚ) : 0 ≤ qabs q := by
  rw [qabs]
  by_cases h : q < 0
  · rw [if_pos h]
    linarith
  · rw [if_neg h]
    exact le_of_not_lt h

theorem segLen_nonneg (p q : Coord) : 0 ≤ segLen p q :=
  add_nonneg (qabs_nonneg _) (qabs_nonneg _)

theorem polyLenFrom_nonneg (p : Coord) (l : Polyline) :
    0 ≤ polyLenFrom p l := by
  induction l generalizing p with
  | nil => exact le_refl 0
  | cons q rest ih => exact add_nonneg (segLen_nonneg p q) (ih q)

theorem polyLen_nonneg (l : Polyline) : 0 ≤ polyLen l := by
  cases l with
  | nil => exact le_refl 0
  | cons p rest => exact polyLenFrom_nonneg p rest

theorem specProjLen_nonneg (g : Frags) : 0 ≤ (specProjLen g).getD 0 := by
  rw [specProjLen]
  simp only [Option.getD_some]
  apply List.sum_nonneg
  intro x hx
  obtain ⟨fr, _, rfl⟩ := List.mem_map.mp hx
  apply List.sum_nonneg
  intro y hy
  obtain ⟨l, _, rfl⟩ := List.mem_map.mp hy
  exact polyLen_nonneg l

theorem round3_nonneg {q : ℚ} (h : 0 ≤ q) : 0 ≤ round3 q := by
  rw [round3]
  apply div_nonneg _ (by norm_num)
  have h2 : (0 : ℤ) ≤ ⌊q * 1000 + 1 / 2⌋ := by
    apply Int.le_floor.mpr
    have h3 : 0 ≤ q * 1000 := mul_nonneg h (by norm_num)
    push_cast
    linarith
  exact_mod_cast h2

theorem calculate_route_length_nonneg (projLen : Frags → Option ℚ)
    (g : Frags) (h : 0 ≤ (projLen g).getD 0) :
    0 ≤ calculate_route_length projLen g := by
  rw [calculate_route_length]
  cases hp : projLen g with
  | none => exact le_refl 0
  | some m =>
    rw [hp] at h
    simp only [Option.getD_some] at h
    exact div_nonneg h (by norm_num)

theorem calculate_route_length_eq_zero_iff (projLen : Frags → Option ℚ)
    (g : Frags) :
    calculate_route_length projLen g = 0
      ↔ projLen g = none ∨ projLen g = some 0 := by
  rw [calculate_route_length]
  cases hp : projLen g with
  | none => simp
  | some m =>
    simp only [Option.some.injEq, reduceCtorEq, false_or]
    rw [div_eq_zero_iff]
    constructor
    · rintro (h | h)
      · exact h
      · norm_num at h
    · intro h
      exact Or.inl h

theorem round3_eq_zero_iff {q : ℚ} :
    round3 q = 0 ↔ -(1 / 2000) ≤ q ∧ q < 1 / 2000 := by
  rw [round3, div_eq_zero_iff]
  constructor
  · rintro (h | h)
    · have h2 : ⌊q * 1000 + 1 / 2⌋ = 0 := by exact_mod_cast h
      rw [Int.floor_eq_zero_iff, Set.mem_Ico] at h2
      obtain ⟨h3, h4⟩ := h2
      constructor
      · linarith
      · linarith
    · norm_num at h
  · rintro ⟨h1, h2⟩
    left
    have h3 : ⌊q * 1000 + 1 / 2⌋ = 0 := by
      rw [Int.floor_eq_zero_iff, Set.mem_Ico]
      constructor
      · linarith
      · linarith
    rw [h3]
    norm_num

/-- Counterexample to C6 as stated: a route whose projected length is
0.4 meters (reachable from two close nodes) has a positive unrounded
length and a successful projection, yet the stored `length_km` field —
`round(length_km, 3)` — is exactly 0, so the zero value of `lengthKm` is
not equivalent to "reprojection failed or no geometry". -/
theorem c6_counterexample :
    (create_route_record specProjLen []
        ([[[(0, 0), (2 / 5, 0)]]] : Frags)).length_km = 0
    ∧ calculate_route_length specProjLen ([[[(0, 0), (2 / 5, 0)]]] : Frags) ≠ 0
    ∧ specProjLen ([[[(0, 0), (2 / 5, 0)]]] : Frags) ≠ none
    ∧ ([[[(0, 0), (2 / 5, 0)]]] : Frags) ≠ [] := by
  have h0 : specProjLen ([[[(0, 0), (2 / 5, 0)]]] : Frags) = some (2 / 5) := by
    norm_num [specProjLen, polyLen, polyLenFrom, segLen, qabs]
  have hc : calculate_route_length specProjLen
      ([[[(0, 0), (2 / 5, 0)]]] : Frags) = 1 / 2500 := by
    rw [calculate_route_length, h0]
    norm_num
  refine ⟨?_, ?_, ?_, by simp⟩
  · have hf : (create_route_record specProjLen []
        ([[[(0, 0), (2 / 5, 0)]]] : Frags)).length_km
          = round3 (calculate_route_length specProjLen
              ([[[(0, 0), (2 / 5, 0)]]] : Frags)) := rfl
    rw [hf, hc, round3]
    have h9 : (1 / 2500 : ℚ) * 1000 + 1 / 2 = 9 / 10 := by norm_num
    rw [h9]
    have hfl : ⌊(9 / 10 : ℚ)⌋ = 0 := by
      rw [Int.floor_eq_zero_iff, Set.mem_Ico]
      constructor <;> norm_num
    rw [hfl]
    norm_num
  · rw [hc]
    norm_num
  · rw [h0]
    simp

/-- Claim C6 (amended): the stored `length_km` field is always
nonnegative and is the three-decimal rounding of the projected length
converted to kilometers; the field equals 0 exactly when the
reprojection fails (the caught exception path) or the projected length
is below half a meter, so that it rounds to 0.000 — in particular when
the route has no geometry or a degenerate geometry, but also for any
route with a positive projected length under 0.5 m.  The unrounded
length is 0 exactly when the reprojection fails or the projected length
is exactly 0. -/
theorem c6_length_properties (projLen : Frags → Option ℚ) (g : Frags)
    (d : RouteDict) (h : 0 ≤ (projLen g).getD 0) :
    0 ≤ calculate_route_length projLen g
    ∧ (create_route_record projLen d g).length_km
        = round3 (calculate_route_length projLen g)
    ∧ 0 ≤ (create_route_record projLen d g).length_km
    ∧ (calculate_route_length projLen g = 0
        ↔ projLen g = none ∨ projLen g = some 0)
    ∧ ((create_route_record projLen d g).length_km = 0
        ↔ projLen g = none ∨ ∃ m, projLen g = some m ∧ m < 1 / 2) := by
  have hnn := calculate_route_length_nonneg projLen g h
  refine ⟨hnn, rfl, round3_nonneg hnn,
    calculate_route_length_eq_zero_iff projLen g, ?_⟩
  have hf : (create_route_record projLen d g).length_km
      = round3 (calculate_route_length projLen g) := rfl
  rw [hf, round3_eq_zero_iff]
  cases hp : projLen g with
  | none =>
    simp only [calculate_route_length, hp]
    constructor
    · intro _
      exact Or.inl trivial
    · intro _
      constructor <;> norm_num
  | some m =>
    have hm : 0 ≤ m := by
      rw [hp] at h
      simpa using h
    simp only [calculate_route_length, hp]
    constructor
    · rintro ⟨_, h2⟩
      right
      refine ⟨m, rfl, ?_⟩
      rw [div_lt_iff₀ (by norm_num : (0 : ℚ) < 1000)] at h2
      linarith
    · rintro (h1 | ⟨m', hm', hlt⟩)
      · simp at h1
      · injection hm' with hmm
        subst hmm
        constructor
        · have h4 : (0 : ℚ) ≤ m / 1000 := div_nonneg hm (by norm_num)
          linarith
        · rw [div_lt_iff₀ (by norm_num : (0 : ℚ) < 1000)]
          linarith

/-- Witness for C6 at a concrete geometry of taxicab length 3 meters,
applying the amended claim theorem with the nonnegativity side condition
discharged by `specProjLen_nonneg`. -/
theorem c6_witness :
    0 ≤ calculate_route_length specProjLen ([[[(0, 0), (3, 0)]]] : Frags)
    ∧ ((create_route_record specProjLen []
          ([[[(0, 0), (3, 0)]]] : Frags)).length_km = 0
        ↔ specProjLen ([[[(0, 0), (3, 0)]]] : Frags) = none
          ∨ ∃ m, specProjLen ([[[(0, 0), (3, 0)]]] : Frags) = some m
              ∧ m < 1 / 2) :=
  ⟨(c6_length_properties specProjLen ([[[(0, 0), (3, 0)]]] : Frags) []
      (specProjLen_nonneg _)).1,
   (c6_length_properties specProjLen ([[[(0, 0), (3, 0)]]] : Frags) []
      (specProjLen_nonneg _)).2.2.2.2⟩

/-- Claim C10, evaluated on the code at a concrete failing input: for an
accepted relation carrying from/to/operator tags, the pipeline dict
stores only name/ref/type/ways, and the serializer reads the keys
"id", "route", "from", "to" and "operator", which are never present, so
the emitted record carries empty route_id, route_type, from_stop,
to_stop and operator, and route_long falls back to the name. -/
theorem c10_code_eval :
    alookup 100 (pt_relation []
        ⟨100, [("type", "route"), ("route", "bus"), ("name", "Line 5"),
               ("from", "Stop A"), ("to", "Stop B"), ("operator", "City")],
         [⟨"w", 10⟩]⟩)
      = some [("name", Val.s "Line 5"), ("ref", Val.s ""),
              ("type", Val.s "bus"), ("ways", Val.ways [10])]
    ∧ (create_route_record specProjLen
        [("name", Val.s "Line 5"), ("ref", Val.s ""),
         ("type", Val.s "bus"), ("ways", Val.ways [10])]
        ([[[(0, 0), (0, 1)]]] : Frags)).route_id = Val.s ""
    ∧ (create_route_record specProjLen
        [("name", Val.s "Line 5"), ("ref", Val.s ""),
         ("type", Val.s "bus"), ("ways", Val.ways [10])]
        ([[[(0, 0), (0, 1)]]] : Frags)).route_type = ""
    ∧ (create_route_record specProjLen
        [("name", Val.s "Line 5"), ("ref", Val.s ""),
         ("type", Val.s "bus"), ("ways", Val.ways [10])]
        ([[[(0, 0), (0, 1)]]] : Frags)).from_stop = ""
    ∧ (create_route_record specProjLen
        [("name", Val.s "Line 5"), ("ref", Val.s ""),
         ("type", Val.s "bus"), ("ways", Val.ways [10])]
        ([[[(0, 0), (0, 1)]]] : Frags)).to_stop = ""
    ∧ (create_route_record specProjLen
        [("name", Val.s "Line 5"), ("ref", Val.s ""),
         ("type", Val.s "bus"), ("ways", Val.ways [10])]
        ([[[(0, 0), (0, 1)]]] : Frags)).operator = ""
    ∧ (create_route_record specProjLen
        [("name", Val.s "Line 5"), ("ref", Val.s ""),
         ("type", Val.s "bus"), ("ways", Val.ways [10])]
        ([[[(0, 0), (0, 1)]]] : Frags)).route_long = "Line 5" :=
  ⟨by decide, by decide, by decide, by decide, by decide, by decide, by decide⟩
